import Mathlib

/-!
Shallow embedding of `src/create_datastore.py` (the `DataStore` class of the
nnose repository) together with a model of the approximate-nearest-neighbor
index it delegates to.  Vectors are lists of rationals; the real-valued
softmax/score pipeline of `DataStore.search_k` is embedded over `ℝ`.

The FAISS library (`faiss.IndexIVFFlat` and friends) is an external
dependency, not part of this repository; its behaviour is modelled from the
specification (sections 4.1 and 4.2: coarse quantizer, inverted lists,
`nprobe` probing, exact rescoring, ties broken by lowest index/id).
-/

/-- Squared Euclidean distance between two vectors, componentwise over the
common prefix.  Modelled from the spec (section 4.2): the index metric is
`METRIC_L2`, i.e. squared Euclidean distance. -/
def sqDist (x y : List ℤ) : ℤ :=
  (List.zipWith (fun a b => (a - b) ^ 2) x y).sum

/-- Comparator on (distance, id) pairs: ascending by distance, ties broken by
the lowest id.  Modelled from the spec (section 4.2). -/
def distLe (a b : ℤ × Nat) : Bool :=
  decide (a.1 < b.1) || (decide (a.1 = b.1) && decide (a.2 ≤ b.2))

/-- Insert one (distance, id) pair into an already sorted list. -/
def insertSorted (x : ℤ × Nat) : List (ℤ × Nat) → List (ℤ × Nat)
  | [] => [x]
  | y :: ys => if distLe x y then x :: y :: ys else y :: insertSorted x ys

/-- Insertion sort of (distance, id) pairs by `distLe`. -/
def sortDist : List (ℤ × Nat) → List (ℤ × Nat)
  | [] => []
  | x :: xs => insertSorted x (sortDist xs)

/-- Index of the centroid nearest to `v` (ties broken by lowest centroid
index; `0` for an empty centroid set).  Modelled from the spec
(section 4.2). -/
def nearestCentroid (cents : List (List ℤ)) (v : List ℤ) : Nat :=
  match sortDist (cents.enum.map (fun p => (sqDist v p.2, p.1))) with
  | [] => 0
  | c :: _ => c.2

/-- Componentwise sum of two vectors. -/
def vecAdd (a b : List ℤ) : List ℤ := List.zipWith (· + ·) a b

/-- Mean of a cluster of points, with componentwise floor division; an empty
cluster keeps the old centroid.  Modelled from the spec (section 4.1, Lloyd
update step); the spec leaves the clustering arithmetic to the
implementation, and no property proved below depends on centroid values. -/
def clusterMean (old : List ℤ) (pts : List (List ℤ)) : List ℤ :=
  match pts with
  | [] => old
  | p :: rest => (rest.foldl vecAdd p).map (fun a => a / ((rest.length + 1 : Nat) : ℤ))

/-- One Lloyd iteration: reassign every sample point to its nearest centroid
and move each centroid to the mean of its cluster.  Modelled from the spec
(section 4.1). -/
def kmeansStep (pts : List (List ℤ)) (cents : List (List ℤ)) : List (List ℤ) :=
  cents.enum.map (fun p => clusterMean p.2 (pts.filter (fun x => nearestCentroid cents x == p.1)))

/-- Iteration cap for the clustering loop (spec section 4.1: iterate until
convergence or an iteration cap). -/
def kmeansIters : Nat := 20

/-- Lloyd-style clustering: initialize centroids from the first `n` sample
points and iterate `iters` update steps.  Modelled from the spec
(section 4.1); the repository delegates this to the external library. -/
def kmeans (pts : List (List ℤ)) (n iters : Nat) : List (List ℤ) :=
  Nat.iterate (kmeansStep pts) iters (pts.take n)

/-- State of the inverted-file index (`faiss.IndexIVFFlat` in the source).
Modelled from the spec (sections 3 and 4.2): centroid set, one inverted list
of (vector id, vector) pairs per centroid, the total insertion counter and
the probing width. -/
structure IVFIndex where
  d : Nat
  nCentroids : Nat
  nprobe : Nat
  centroids : List (List ℤ)
  is_trained : Bool
  lists : List (List (Nat × List ℤ))
  ntotal : Nat
deriving DecidableEq

/-- Fresh untrained index with empty inverted lists, as built in
`DataStore.__init__` (source lines 54-57). -/
def IVFIndex.base (d nCentroids nprobe : Nat) : IVFIndex :=
  { d := d
    nCentroids := nCentroids
    nprobe := nprobe
    centroids := []
    is_trained := false
    lists := List.replicate nCentroids []
    ntotal := 0 }

/-- Failure modes of the build pipeline.  `emptyStack` embeds the
`np.stack` of source lines 141-143, which raises on an empty row list;
`insufficientData` embeds the clustering failure when the sample holds fewer
points than `nCentroids` (spec sections 4.1 and 7; the library's clustering
throws when the training set is smaller than the number of centroids);
`alreadyTrained` records the spec's claimed rejection of re-training (spec
section 4.5), which the source never produces. -/
inductive BuildError where
  | emptyStack
  | insufficientData
  | alreadyTrained
deriving DecidableEq

/-- Training of the index (`index.train` in the library).  Modelled from the
library's documented behaviour together with spec section 4.1: training an
already trained IVF index leaves it unchanged (the quantizer "does not need
training"); training with fewer sample points than centroids fails
(`InsufficientDataError` of the spec, a thrown clustering error in the
library); otherwise the centroids are learnt from the sample. -/
def IVFIndex.train (idx : IVFIndex) (sample : List (List ℤ)) : Except BuildError IVFIndex :=
  if idx.is_trained then .ok idx
  else if sample.length < idx.nCentroids then .error .insufficientData
  else .ok { idx with centroids := kmeans sample idx.nCentroids kmeansIters, is_trained := true }

/-- Insert one vector: append it, tagged with the next id, to the inverted
list of its nearest centroid and advance the insertion counter.  Modelled
from the spec (section 4.2, `add`). -/
def IVFIndex.addOne (idx : IVFIndex) (v : List ℤ) : IVFIndex :=
  let ci := nearestCentroid idx.centroids v
  { idx with
    lists := idx.lists.set ci (idx.lists.getD ci [] ++ [(idx.ntotal, v)]),
    ntotal := idx.ntotal + 1 }

/-- Bulk insertion in call order (`index.add` in the library).  Modelled from
the spec (section 4.2). -/
def IVFIndex.add (idx : IVFIndex) (vecs : List (List ℤ)) : IVFIndex :=
  vecs.foldl IVFIndex.addOne idx

/-- Top-`k` search for one query: probe the `nprobe` nearest centroids,
rescore every candidate of their inverted lists exactly, and return the `k`
smallest (distance, id) pairs, ascending, ties broken by lowest id.  Returns
a short list when fewer candidates exist.  Modelled from the spec
(section 4.2, `search`). -/
def IVFIndex.search (idx : IVFIndex) (qv : List ℤ) (k : Nat) : List (ℤ × Nat) :=
  let centDists := idx.centroids.enum.map (fun p => (sqDist qv p.2, p.1))
  let probed := (sortDist centDists).take idx.nprobe
  let cands := (probed.map (fun p => idx.lists.getD p.2 [])).flatten
  let rescored := cands.map (fun e => (sqDist qv e.2, e.1))
  (sortDist rescored).take k

/-- Failure modes of `DataStore.search_k`: the vocab-size assertion of source
lines 240-242, and the runtime index-out-of-bounds failures of the label and
input lookups (source lines 247-248) and of the scatter (source line 253). -/
inductive DSError where
  | vocabNotSet
  | outOfRange
deriving DecidableEq

/-- Whether an `Except` value is a success. -/
def exceptOk {ε α : Type} : Except ε α → Bool
  | .ok _ => true
  | .error _ => false

/-- Order-preserving batched lookup of vector ids in a parallel array store,
including duplicate ids; fails if any id is out of bounds.  This embeds the
tensor fancy-indexing `store[I]` of source lines 247-248 (spec section 4.3,
`lookup_many`). -/
def lookupMany (store : List Int) : List Nat → Option (List Int)
  | [] => some []
  | i :: rest =>
    match store[i]?, lookupMany store rest with
    | some v, some vs => some (v :: vs)
    | _, _ => none

/-- Row-by-row batched lookup over a matrix of ids; fails if any row fails. -/
def lookupRows (store : List Int) : List (List Nat) → Option (List (List Int))
  | [] => some []
  | r :: rs =>
    match lookupMany store r, lookupRows store rs with
    | some v, some vs => some (v :: vs)
    | _, _ => none

/-- All label ids of the matrix lie in `[0, vocab_size)` (the in-bounds
condition of the scatter on source line 253). -/
def labelsInRangeB (vocab : Int) (rows : List (List Int)) : Bool :=
  rows.all (fun row => row.all (fun l => decide (0 ≤ l) && decide (l < vocab)))

/-- Softmax of a list of reals: `exp x_i / sum of exp x_j` (the
`torch.softmax` of source lines 250-252; over `ℝ` the max-subtracting stable
formulation of the spec coincides with this one). -/
noncomputable def softmax (xs : List ℝ) : List ℝ :=
  (xs.map Real.exp).map (fun e => e / (xs.map Real.exp).sum)

/-- Zero score vector of the given length (`torch.zeros` of source
line 249). -/
def zerosR (n : Nat) : List ℝ := List.replicate n 0

/-- Add `w` to position `i` of a vector; positions past the end are left
unchanged. -/
def addAt : List ℝ → Nat → ℝ → List ℝ
  | [], _, _ => []
  | x :: xs, 0, w => (x + w) :: xs
  | x :: xs, n + 1, w => x :: addAt xs n w

/-- Accumulating scatter of (position, weight) pairs into a base vector: the
`scores.scatter(1, labels, weights, reduce="add")` of source lines 253-255,
restricted to one row.  Duplicate positions accumulate. -/
def scatterRow : List ℝ → List (Nat × ℝ) → List ℝ
  | base, [] => base
  | base, p :: rest => scatterRow (addAt base p.1 p.2) rest

/-- Score row for one query: zero vector of length `vocab`, with each
neighbor's softmax weight added at its label position (source lines
249-255, one row). -/
def scoreRowOf (vocab : Nat) (labels : List Int) (ws : List ℝ) : List ℝ :=
  scatterRow (zerosR vocab) ((labels.map Int.toNat).zip ws)

/-- Datastore state: dimension, ANN index, vocabulary size and the two
parallel id stores (`DataStore` attributes of the source). -/
structure DataStore where
  d : Nat
  index : IVFIndex
  vocab_size : Int
  label_id_store : List Int
  input_id_store : List Int
deriving DecidableEq

/-- Constructor of the datastore (source lines 43-62): IVF index with 4096
centroids and `nprobe = 32`, and the vocab-size sentinel `-1`, to be set
later.  The stores are absent until `load` or a build sets them; they are
embedded as initially empty lists. -/
def DataStore.init (d : Nat) : DataStore :=
  { d := d
    index := IVFIndex.base d 4096 32
    vocab_size := -1
    label_id_store := []
    input_id_store := [] }

/-- Persisted directory layout (spec section 6): the serialized index
(`index.trained`), the label id array (`token_ids.pt`) and the input id
array (`input_ids.pt`).  Serialization by the external libraries is modelled
as faithful storage of the values themselves. -/
structure SavedDir where
  index_file : IVFIndex
  token_id_file : List Int
  input_id_file : List Int
deriving DecidableEq

/-- Persistence (source lines 198-221): write the index and the two id
stores. -/
def DataStore.save (ds : DataStore) : SavedDir :=
  { index_file := ds.index
    token_id_file := ds.label_id_store
    input_id_file := ds.input_id_store }

/-- Loading (source lines 64-83): replace the index and the two id stores by
the persisted ones; all other attributes (dimension, vocab size) are kept. -/
def DataStore.load (ds : DataStore) (dir : SavedDir) : DataStore :=
  { ds with
    index := dir.index_file
    label_id_store := dir.token_id_file
    input_id_store := dir.input_id_file }

/-- Training of the index (source lines 85-97): delegate to the library's
`index.train` with no lifecycle check, propagating the library's failure;
the GPU-to-CPU move of line 97 is device bookkeeping outside the model.  The
`alreadyTrained` error of the spec's claimed rejection is never produced. -/
def DataStore.train_index (ds : DataStore) (key_store : List (List ℤ)) :
    Except BuildError DataStore :=
  match ds.index.train key_store with
  | .ok idx => .ok { ds with index := idx }
  | .error e => .error e

/-- Bulk insertion (source lines 185-196): delegate to the library's
`index.add`. -/
def DataStore.add_keys (ds : DataStore) (keys_to_add : List (List ℤ)) : DataStore :=
  { ds with index := ds.index.add keys_to_add }

/-- Setting the vocabulary size (source lines 223-230): unconditional
attribute assignment, no validation. -/
def DataStore.set_vocab_size (ds : DataStore) (vocab_size : Int) : DataStore :=
  { ds with vocab_size := vocab_size }

/-- Ids of the `k` retrieved neighbors of one query row (the row of `I` on
source line 244). -/
def DataStore.neighborIds (ds : DataStore) (qv : List ℤ) (k : Nat) : List Nat :=
  (ds.index.search qv k).map Prod.snd

/-- Distances of the `k` retrieved neighbors of one query row (the row of `D`
on source line 244). -/
def DataStore.neighborDists (ds : DataStore) (qv : List ℤ) (k : Nat) : List ℤ :=
  (ds.index.search qv k).map Prod.fst

/-- Softmax weights of one query row: `softmax(-D / T)` (source lines
250-252, one row). -/
noncomputable def DataStore.neighborWeights (ds : DataStore) (qv : List ℤ) (k : Nat) (T : ℚ) :
    List ℝ :=
  softmax ((ds.neighborDists qv k).map (fun dv => -((dv : ℤ) : ℝ) / ((T : ℚ) : ℝ)))

/-- Matrix of retrieved neighbor ids, one row per query (`I` of source
line 244). -/
def DataStore.neighborIdMat (ds : DataStore) (q : List (List ℤ)) (k : Nat) : List (List Nat) :=
  q.map (fun qv => ds.neighborIds qv k)

/-- Label rows of the retrieved neighbors (`label_id_store[I]`, source
line 247). -/
def DataStore.labelRowsOf (ds : DataStore) (q : List (List ℤ)) (k : Nat) :
    Option (List (List Int)) :=
  lookupRows ds.label_id_store (ds.neighborIdMat q k)

/-- Input-token rows of the retrieved neighbors (`input_id_store[I]`, source
line 248). -/
def DataStore.inputRowsOf (ds : DataStore) (q : List (List ℤ)) (k : Nat) :
    Option (List (List Int)) :=
  lookupRows ds.input_id_store (ds.neighborIdMat q k)

/-- Score matrix: one scattered softmax row per query (source lines
249-255). -/
noncomputable def DataStore.scoreMat (ds : DataStore) (q : List (List ℤ)) (k : Nat) (T : ℚ)
    (labelRows : List (List Int)) : List (List ℝ) :=
  List.zipWith (fun qv lrow => scoreRowOf ds.vocab_size.toNat lrow (ds.neighborWeights qv k T))
    q labelRows

/-- Search (source lines 232-256): assert the vocab size is at least 1, run
the index search for every query, look the neighbor ids up in the label and
input stores, softmax the negated scaled distances and scatter-add the
weights onto the label positions; return the score matrix, the input-token
rows and the id matrix. -/
noncomputable def DataStore.search_k (ds : DataStore) (q : List (List ℤ)) (k : Nat) (T : ℚ) :
    Except DSError (List (List ℝ) × List (List Int) × List (List Nat)) :=
  if ds.vocab_size < 1 then .error .vocabNotSet
  else
    match ds.labelRowsOf q k, ds.inputRowsOf q k with
    | some L, some A =>
      if labelsInRangeB ds.vocab_size L then
        .ok (ds.scoreMat q k T L, A, ds.neighborIdMat q k)
      else .error .outOfRange
    | _, _ => .error .outOfRange

/-- Score matrix of a successful search; `[]` when the search fails. -/
noncomputable def DataStore.scoresOf (ds : DataStore) (q : List (List ℤ)) (k : Nat) (T : ℚ) :
    List (List ℝ) :=
  match ds.search_k q k T with
  | .ok r => r.1
  | .error _ => []

/-- Input-token rows of a successful search; `[]` when the search fails. -/
noncomputable def DataStore.inputsOf (ds : DataStore) (q : List (List ℤ)) (k : Nat) (T : ℚ) :
    List (List Int) :=
  match ds.search_k q k T with
  | .ok r => r.2.1
  | .error _ => []

/-- Neighbor id matrix of a successful search; `[]` when the search fails. -/
noncomputable def DataStore.idsOf (ds : DataStore) (q : List (List ℤ)) (k : Nat) (T : ℚ) :
    List (List Nat) :=
  match ds.search_k q k T with
  | .ok r => r.2.2
  | .error _ => []

/-- One raw-feature shard: stacked key vectors, label-token ids and
input-token ids with matching row counts (spec section 6, raw-feature input
format; produced by an external collaborator). -/
structure Shard where
  keys : List (List ℤ)
  labels : List Int
  inputs : List Int
deriving DecidableEq

/-- Reading and stacking the raw feature files (source lines 99-148): take
the first `floor(count * percentage / 100)` shards in directory-listing
order and concatenate their keys, label ids and input ids.  When a
concatenation is empty, the `np.stack` calls of lines 141-143 raise, so an
empty selection fails rather than producing empty stores. -/
def read_feature_files (feature_dir : List Shard) (percentage : Nat) :
    Except BuildError (List (List ℤ) × List Int × List Int) :=
  let files := feature_dir.take (feature_dir.length * percentage / 100)
  let key_store := (files.map Shard.keys).flatten
  let label_id_store := (files.map Shard.labels).flatten
  let input_id_store := (files.map Shard.inputs).flatten
  if key_store.isEmpty || label_id_store.isEmpty || input_id_store.isEmpty then
    .error .emptyStack
  else .ok (key_store, label_id_store, input_id_store)

/-- Command-line options consumed by the build (source lines 287-297):
the whitening flag and the dimension-reduction size (an integer whose
truthiness is tested on source line 170). -/
structure Args where
  whitening : Bool
  dim_reduction : Int
deriving DecidableEq

/-- Contents of the build output directory: the optional whitening kernel
and bias files (source lines 173-175) and the persisted datastore files
(source line 182 via `save`). -/
structure OutputDir where
  kernel_file : Option (List (List ℤ))
  bias_file : Option (List ℤ)
  saved : SavedDir
deriving DecidableEq

/-- Kernel produced by the whitening call after the optional column
truncation of source lines 168-171: `kernel[:, :d]` when `dim_reduction` is
truthy. -/
def effectiveKernel (args : Args) (d : Nat) (kernel0 : List (List ℤ)) : List (List ℤ) :=
  if args.dim_reduction ≠ 0 then kernel0.map (List.take d) else kernel0

/-- Whitening stage of the build (source lines 166-178): when enabled,
compute the kernel and bias from the key store with the external `whitening`
routine `wfn`, truncate the kernel, and transform every key vector with the
external `transform_and_normalize` routine `tfn` (spec section 6 treats the
transform as a black-box affine map on vectors).  Returns the artifacts to
persist and the key store to train on. -/
def whitenStage (args : Args) (d : Nat)
    (wfn : List (List ℤ) → List (List ℤ) × List ℤ)
    (tfn : List ℤ → List (List ℤ) → List ℤ → List ℤ)
    (key_store : List (List ℤ)) :
    Option (List (List ℤ) × List ℤ) × List (List ℤ) :=
  if args.whitening then
    let kb := wfn key_store
    let kernel := effectiveKernel args d kb.1
    (some (kernel, kb.2), key_store.map (fun v => tfn v kernel kb.2))
  else (none, key_store)

/-- State right after source lines 163-164: the label and input id stores
have been set from a successful read; the index is not touched yet. -/
def DataStore.withStores (ds : DataStore) (labels inputs : List Int) : DataStore :=
  { ds with label_id_store := labels, input_id_store := inputs }

/-- Build pipeline (source lines 150-183): read the features (propagating
the read failure), set the id stores, optionally whiten the keys, train the
index on the (possibly transformed) key store (propagating the training
failure), add the same key store, and save everything to the output
directory. -/
def DataStore.read_features_and_train (ds : DataStore) (args : Args)
    (wfn : List (List ℤ) → List (List ℤ) × List ℤ)
    (tfn : List ℤ → List (List ℤ) → List ℤ → List ℤ)
    (feature_dir : List Shard) (percentage : Nat) :
    Except BuildError (DataStore × OutputDir) :=
  match read_feature_files feature_dir percentage with
  | .error e => .error e
  | .ok r =>
    let key_store := r.1
    let ds1 := ds.withStores r.2.1 r.2.2
    let w := whitenStage args ds.d wfn tfn key_store
    match ds1.train_index w.2 with
    | .error e => .error e
    | .ok ds2 =>
      let ds3 := ds2.add_keys w.2
      .ok (ds3,
        { kernel_file := w.1.map Prod.fst
          bias_file := w.1.map Prod.snd
          saved := ds3.save })

/-- Datastore produced by a successful build; the input store is returned
unchanged when the build fails. -/
def DataStore.buildOut (ds : DataStore) (args : Args)
    (wfn : List (List ℤ) → List (List ℤ) × List ℤ)
    (tfn : List ℤ → List (List ℤ) → List ℤ → List ℤ)
    (feature_dir : List Shard) (percentage : Nat) : DataStore :=
  match ds.read_features_and_train args wfn tfn feature_dir percentage with
  | .ok r => r.1
  | .error _ => ds

/-- Output directory produced by a successful build. -/
def DataStore.outDirOf (ds : DataStore) (args : Args)
    (wfn : List (List ℤ) → List (List ℤ) × List ℤ)
    (tfn : List ℤ → List (List ℤ) → List ℤ → List ℤ)
    (feature_dir : List Shard) (percentage : Nat) : Option OutputDir :=
  match ds.read_features_and_train args wfn tfn feature_dir percentage with
  | .ok r => some r.2
  | .error _ => none

/-- Count invariant of spec section 3: the label store, the input store and
the index's insertion counter agree. -/
def countInvariant (ds : DataStore) : Prop :=
  ds.label_id_store.length = ds.input_id_store.length ∧
    ds.label_id_store.length = ds.index.ntotal

instance (ds : DataStore) : Decidable (countInvariant ds) := by
  unfold countInvariant; infer_instance

/-! ### Helper lemmas about the embedded operations -/

lemma lookupMany_some_length {store : List Int} :
    ∀ {ids : List Nat} {out : List Int}, lookupMany store ids = some out →
      out.length = ids.length := by
  intro ids
  induction ids with
  | nil => intro out h; simp [lookupMany] at h; simp [← h]
  | cons i rest ih =>
    intro out h
    unfold lookupMany at h
    cases hv : store[i]? with
    | none => rw [hv] at h; simp at h
    | some v =>
      rw [hv] at h
      cases hrest : lookupMany store rest with
      | none => rw [hrest] at h; simp at h
      | some vs =>
        rw [hrest] at h
        simp only [Option.some.injEq] at h
        subst h
        simp [ih hrest]

lemma lookupMany_some_eq_map {store : List Int} :
    ∀ {ids : List Nat} {out : List Int}, lookupMany store ids = some out →
      out = ids.map (fun i => store.getD i 0) := by
  intro ids
  induction ids with
  | nil => intro out h; simp [lookupMany] at h; simp [← h]
  | cons i rest ih =>
    intro out h
    unfold lookupMany at h
    cases hv : store[i]? with
    | none => rw [hv] at h; simp at h
    | some v =>
      rw [hv] at h
      cases hrest : lookupMany store rest with
      | none => rw [hrest] at h; simp at h
      | some vs =>
        rw [hrest] at h
        simp only [Option.some.injEq] at h
        subst h
        simp only [List.map_cons, List.cons.injEq]
        refine ⟨?_, ih hrest⟩
        rw [List.getD_eq_getElem?_getD, hv]
        rfl

lemma lookupRows_some_length {store : List Int} :
    ∀ {rows : List (List Nat)} {L : List (List Int)}, lookupRows store rows = some L →
      L.length = rows.length := by
  intro rows
  induction rows with
  | nil => intro L h; simp [lookupRows] at h; simp [← h]
  | cons r rs ih =>
    intro L h
    unfold lookupRows at h
    cases hv : lookupMany store r with
    | none => rw [hv] at h; simp at h
    | some v =>
      rw [hv] at h
      cases hrest : lookupRows store rs with
      | none => rw [hrest] at h; simp at h
      | some vs =>
        rw [hrest] at h
        simp only [Option.some.injEq] at h
        subst h
        simp [ih hrest]

lemma lookupRows_some_getD {store : List Int} :
    ∀ {rows : List (List Nat)} {L : List (List Int)}, lookupRows store rows = some L →
      ∀ i, i < rows.length → lookupMany store (rows.getD i []) = some (L.getD i []) := by
  intro rows
  induction rows with
  | nil => intro L _ i hi; simp at hi
  | cons r rs ih =>
    intro L h i hi
    unfold lookupRows at h
    cases hv : lookupMany store r with
    | none => rw [hv] at h; simp at h
    | some v =>
      rw [hv] at h
      cases hrest : lookupRows store rs with
      | none => rw [hrest] at h; simp at h
      | some vs =>
        rw [hrest] at h
        simp only [Option.some.injEq] at h
        subst h
        cases i with
        | zero => simpa using hv
        | succ j =>
          simp only [List.getD_cons_succ]
          exact ih hrest j (by simpa using hi)

lemma softmax_length (xs : List ℝ) : (softmax xs).length = xs.length := by
  simp [softmax]

lemma softmax_sum_one (xs : List ℝ) (h : xs ≠ []) : (softmax xs).sum = 1 := by
  unfold softmax
  have hpos : 0 < (xs.map Real.exp).sum := by
    apply List.sum_pos
    · intro e he
      obtain ⟨x, _, rfl⟩ := List.mem_map.mp he
      exact Real.exp_pos x
    · simpa using h
  have hne : (xs.map Real.exp).sum ≠ 0 := ne_of_gt hpos
  have key : ∀ (l : List ℝ) (c : ℝ), (l.map (fun e => e / c)).sum = l.sum / c := by
    intro l c
    induction l with
    | nil => simp
    | cons a t iht => simp [iht, add_div]
  rw [key, div_self hne]

lemma softmax_pos (xs : List ℝ) (h : xs ≠ []) : ∀ w ∈ softmax xs, 0 < w := by
  intro w hw
  unfold softmax at hw
  obtain ⟨e, he, rfl⟩ := List.mem_map.mp hw
  obtain ⟨x, _, rfl⟩ := List.mem_map.mp he
  have hpos : 0 < (xs.map Real.exp).sum := by
    apply List.sum_pos
    · intro a ha
      obtain ⟨y, _, rfl⟩ := List.mem_map.mp ha
      exact Real.exp_pos y
    · simpa using h
  exact div_pos (Real.exp_pos x) hpos

lemma addAt_length : ∀ (v : List ℝ) (i : Nat) (w : ℝ), (addAt v i w).length = v.length := by
  intro v
  induction v with
  | nil => intro i w; simp [addAt]
  | cons x xs ih =>
    intro i w
    cases i with
    | zero => simp [addAt]
    | succ j => simp [addAt, ih]

lemma addAt_sum : ∀ (v : List ℝ) (i : Nat) (w : ℝ), i < v.length →
    (addAt v i w).sum = v.sum + w := by
  intro v
  induction v with
  | nil => intro i w hi; simp at hi
  | cons x xs ih =>
    intro i w hi
    cases i with
    | zero => simp [addAt]; ring
    | succ j =>
      simp only [addAt, List.sum_cons]
      rw [ih j w (by simpa using hi)]
      ring

lemma addAt_getD_self : ∀ (v : List ℝ) (i : Nat) (w : ℝ), i < v.length →
    (addAt v i w).getD i 0 = v.getD i 0 + w := by
  intro v
  induction v with
  | nil => intro i w hi; simp at hi
  | cons x xs ih =>
    intro i w hi
    cases i with
    | zero => simp [addAt]
    | succ j =>
      simp only [addAt, List.getD_cons_succ]
      exact ih j w (by simpa using hi)

lemma addAt_getD_ne : ∀ (v : List ℝ) (i j : Nat) (w : ℝ), j ≠ i →
    (addAt v i w).getD j 0 = v.getD j 0 := by
  intro v
  induction v with
  | nil => intro i j w _; simp [addAt]
  | cons x xs ih =>
    intro i j w hne
    cases i with
    | zero =>
      cases j with
      | zero => exact absurd rfl hne
      | succ m => simp [addAt]
    | succ n =>
      cases j with
      | zero => simp [addAt]
      | succ m =>
        simp only [addAt, List.getD_cons_succ]
        exact ih n m w (fun hc => hne (by rw [hc]))

lemma scatterRow_length : ∀ (ps : List (Nat × ℝ)) (base : List ℝ),
    (scatterRow base ps).length = base.length := by
  intro ps
  induction ps with
  | nil => intro base; simp [scatterRow]
  | cons p rest ih =>
    intro base
    simp only [scatterRow]
    rw [ih, addAt_length]

lemma scatterRow_sum : ∀ (ps : List (Nat × ℝ)) (base : List ℝ),
    (∀ p ∈ ps, p.1 < base.length) →
    (scatterRow base ps).sum = base.sum + (ps.map Prod.snd).sum := by
  intro ps
  induction ps with
  | nil => intro base _; simp [scatterRow]
  | cons p rest ih =>
    intro base hlt
    simp only [scatterRow, List.map_cons, List.sum_cons]
    rw [ih (addAt base p.1 p.2)
      (by intro a ha; rw [addAt_length]; exact hlt a (List.mem_cons_of_mem p ha))]
    rw [addAt_sum base p.1 p.2 (hlt p (List.mem_cons_self p rest))]
    ring

lemma scatterRow_getD : ∀ (ps : List (Nat × ℝ)) (base : List ℝ) (X : Nat), X < base.length →
    (scatterRow base ps).getD X 0
      = base.getD X 0 + ((ps.filter (fun p => p.1 == X)).map Prod.snd).sum := by
  intro ps
  induction ps with
  | nil => intro base X _; simp [scatterRow]
  | cons p rest ih =>
    intro base X hX
    simp only [scatterRow]
    rw [ih (addAt base p.1 p.2) X (by rwa [addAt_length])]
    by_cases hpx : p.1 = X
    · subst hpx
      rw [addAt_getD_self base p.1 p.2 hX]
      simp only [List.filter_cons, beq_self_eq_true, if_pos, List.map_cons, List.sum_cons]
      ring
    · rw [addAt_getD_ne base p.1 X p.2 (fun hc => hpx hc.symm)]
      have : (p.1 == X) = false := beq_eq_false_iff_ne.mpr hpx
      simp [List.filter_cons, this]

lemma search_k_eq_ok (ds : DataStore) (q : List (List ℤ)) (k : Nat) (T : ℚ)
    (L A : List (List Int))
    (hv : 1 ≤ ds.vocab_size) (hL : ds.labelRowsOf q k = some L)
    (hA : ds.inputRowsOf q k = some A)
    (hr : labelsInRangeB ds.vocab_size L = true) :
    ds.search_k q k T = .ok (ds.scoreMat q k T L, A, ds.neighborIdMat q k) := by
  unfold DataStore.search_k
  rw [if_neg (by omega), hL, hA]
  simp [hr]

lemma search_k_ok_inv (ds : DataStore) (q : List (List ℤ)) (k : Nat) (T : ℚ)
    (h : exceptOk (ds.search_k q k T) = true) :
    1 ≤ ds.vocab_size ∧ ∃ L A, ds.labelRowsOf q k = some L ∧ ds.inputRowsOf q k = some A ∧
      labelsInRangeB ds.vocab_size L = true ∧
      ds.search_k q k T = .ok (ds.scoreMat q k T L, A, ds.neighborIdMat q k) := by
  by_cases hv : ds.vocab_size < 1
  · exfalso
    unfold DataStore.search_k at h
    rw [if_pos hv] at h
    simp [exceptOk] at h
  · cases hL : ds.labelRowsOf q k with
    | none =>
      exfalso
      unfold DataStore.search_k at h
      rw [if_neg hv, hL] at h
      simp [exceptOk] at h
    | some L =>
      cases hA : ds.inputRowsOf q k with
      | none =>
        exfalso
        unfold DataStore.search_k at h
        rw [if_neg hv, hL, hA] at h
        simp [exceptOk] at h
      | some A =>
        by_cases hr : labelsInRangeB ds.vocab_size L = true
        · exact ⟨by omega, L, A, rfl, rfl, hr,
            search_k_eq_ok ds q k T L A (by omega) hL hA hr⟩
        · exfalso
          unfold DataStore.search_k at h
          rw [if_neg hv, hL, hA] at h
          simp [exceptOk, hr] at h

lemma neighborWeights_length (ds : DataStore) (qv : List ℤ) (k : Nat) (T : ℚ) :
    (ds.neighborWeights qv k T).length = (ds.neighborIds qv k).length := by
  unfold DataStore.neighborWeights DataStore.neighborDists DataStore.neighborIds
  rw [softmax_length]
  simp

lemma neighborIdMat_length (ds : DataStore) (q : List (List ℤ)) (k : Nat) :
    (ds.neighborIdMat q k).length = q.length := by
  simp [DataStore.neighborIdMat]

lemma scoreRowOf_sum (v : Nat) (labels : List Int) (ws : List ℝ)
    (hlen : labels.length = ws.length)
    (hrange : ∀ l ∈ labels, 0 ≤ l ∧ l < (v : Int))
    (hsum : ws.sum = 1) :
    (scoreRowOf v labels ws).sum = 1 := by
  unfold scoreRowOf
  rw [scatterRow_sum]
  · have h1 : (zerosR v).sum = 0 := by simp [zerosR]
    have h2 : ((labels.map Int.toNat).zip ws).map Prod.snd = ws := by
      apply List.map_snd_zip
      simp [hlen]
    rw [h1, h2, hsum]
    ring
  · intro p hp
    obtain ⟨a, b⟩ := p
    obtain ⟨h1, _⟩ := List.of_mem_zip hp
    obtain ⟨l, hl, rfl⟩ := List.mem_map.mp h1
    have hb := hrange l hl
    simp only [zerosR, List.length_replicate]
    omega

lemma labelRow_facts (ds : DataStore) (q : List (List ℤ)) (k : Nat)
    (L : List (List Int)) (hL : ds.labelRowsOf q k = some L) :
    L.length = q.length ∧
      ∀ i, i < q.length →
        lookupMany ds.label_id_store (ds.neighborIds (q.getD i []) k) = some (L.getD i []) := by
  unfold DataStore.labelRowsOf at hL
  constructor
  · rw [lookupRows_some_length hL, neighborIdMat_length]
  · intro i hi
    have h := lookupRows_some_getD hL i (by rwa [neighborIdMat_length])
    have hmat : (ds.neighborIdMat q k).getD i [] = ds.neighborIds (q.getD i []) k := by
      unfold DataStore.neighborIdMat
      rw [List.getD_eq_getElem?_getD, List.getElem?_map]
      rw [List.getElem?_eq_getElem hi]
      simp [List.getD_eq_getElem?_getD, List.getElem?_eq_getElem hi]
    rwa [hmat] at h

/-- C1: for every search over a query batch in which each query retrieves at
least one neighbor, with positive temperature, whose retrieved labels all lie
in `[0, vocab_size)` (equivalently, the search returns a score matrix), each
row of the returned score matrix sums to 1: the softmax weights sum to 1 and
are redistributed onto label positions without loss or double counting.  In
this real-valued embedding the floating-point tolerance becomes exact
equality. -/
theorem search_score_rows_sum_one (ds : DataStore) (q : List (List ℤ)) (k : Nat) (T : ℚ)
    (hT : 0 < T)
    (hok : exceptOk (ds.search_k q k T) = true)
    (hne : ∀ qv ∈ q, ds.neighborIds qv k ≠ []) :
    (ds.scoresOf q k T).map List.sum = List.replicate q.length 1 := by
  obtain ⟨hv, L, A, hL, hA, hr, heq⟩ := search_k_ok_inv ds q k T hok
  obtain ⟨hLlen, hLget⟩ := labelRow_facts ds q k L hL
  have hscores : ds.scoresOf q k T = ds.scoreMat q k T L := by
    unfold DataStore.scoresOf
    rw [heq]
  have hall : ∀ row ∈ ds.scoreMat q k T L, row.sum = 1 := by
    intro row hrow
    rw [List.mem_iff_getElem] at hrow
    obtain ⟨i, hi, hrow⟩ := hrow
    unfold DataStore.scoreMat at hrow hi
    rw [List.length_zipWith] at hi
    have hiq : i < q.length := lt_of_lt_of_le hi (min_le_left _ _)
    have hiL : i < L.length := lt_of_lt_of_le hi (min_le_right _ _)
    rw [List.getElem_zipWith] at hrow
    subst hrow
    set qv := q[i] with hqv
    set lrow := L[i] with hlrow
    have hqmem : qv ∈ q := List.getElem_mem hiq
    have hlmem : lrow ∈ L := List.getElem_mem hiL
    have hgetq : q.getD i [] = qv := by rw [List.getD_eq_getElem (l := q) [] hiq]
    have hgetL : L.getD i [] = lrow := by rw [List.getD_eq_getElem (l := L) [] hiL]
    have hlook := hLget i hiq
    rw [hgetq, hgetL] at hlook
    apply scoreRowOf_sum
    · rw [lookupMany_some_length hlook, neighborWeights_length]
    · intro l hl
      have h1 := List.all_eq_true.mp hr lrow hlmem
      have h2 := List.all_eq_true.mp h1 l hl
      rw [Bool.and_eq_true, decide_eq_true_eq, decide_eq_true_eq] at h2
      have : (ds.vocab_size.toNat : Int) = ds.vocab_size := Int.toNat_of_nonneg (by omega)
      omega
    · apply softmax_sum_one
      have hne2 := hne qv hqmem
      intro hemp
      apply hne2
      unfold DataStore.neighborIds
      unfold DataStore.neighborDists at hemp
      rw [List.map_eq_nil_iff] at hemp ⊢
      rwa [List.map_eq_nil_iff] at hemp
  rw [hscores, List.eq_replicate_iff]
  constructor
  · rw [List.length_map]
    unfold DataStore.scoreMat
    rw [List.length_zipWith]
    omega
  · intro b hb
    obtain ⟨row, hrow, rfl⟩ := List.mem_map.mp hb
    exact hall row hrow

lemma two_le_length_filter {α : Type} (p : α → Bool) :
    ∀ (l : List α) (i j : Nat) (hi : i < l.length) (hj : j < l.length), i ≠ j →
      p (l.get ⟨i, hi⟩) = true → p (l.get ⟨j, hj⟩) = true →
      2 ≤ (l.filter p).length := by
  intro l
  induction l with
  | nil => intro i j hi _ _ _ _; simp at hi
  | cons a t ih =>
    intro i j hi hj hij hpi hpj
    have hfilter_le : (t.filter p).length ≤ ((a :: t).filter p).length := by
      by_cases hpa : p a = true
      · simp [List.filter_cons, hpa]
      · have : p a = false := by simpa using hpa
        simp [List.filter_cons, this]
    cases i with
    | zero =>
      cases j with
      | zero => exact absurd rfl hij
      | succ m =>
        have hpa : p a = true := hpi
        have hm : m < t.length := by simpa using hj
        have hmem : t.get ⟨m, hm⟩ ∈ t.filter p :=
          List.mem_filter.mpr ⟨List.get_mem t m hm, hpj⟩
        have h1 : 1 ≤ (t.filter p).length := List.length_pos_of_mem hmem
        simp only [List.filter_cons, hpa, if_pos, List.length_cons]
        omega
    | succ n =>
      cases j with
      | zero =>
        have hpa : p a = true := hpj
        have hn : n < t.length := by simpa using hi
        have hmem : t.get ⟨n, hn⟩ ∈ t.filter p :=
          List.mem_filter.mpr ⟨List.get_mem t n hn, hpi⟩
        have h1 : 1 ≤ (t.filter p).length := List.length_pos_of_mem hmem
        simp only [List.filter_cons, hpa, if_pos, List.length_cons]
        omega
      | succ m =>
        have hn : n < t.length := by simpa using hi
        have hm : m < t.length := by simpa using hj
        have := ih n m hn hm (by omega) hpi hpj
        omega

lemma lt_sum_of_two_le_length (ms : List ℝ) (hpos : ∀ x ∈ ms, 0 < x)
    (hlen : 2 ≤ ms.length) : ∀ x ∈ ms, x < ms.sum := by
  intro x hx
  cases ms with
  | nil => simp at hx
  | cons a t =>
    cases List.mem_cons.mp hx with
    | inl h =>
      have ht : t ≠ [] := by
        intro hc
        subst hc
        simp at hlen
      have htpos : 0 < t.sum :=
        List.sum_pos t (fun y hy => hpos y (List.mem_cons_of_mem a hy)) ht
      rw [h]
      simp only [List.sum_cons]
      linarith
    | inr h =>
      have hx_le : x ≤ t.sum :=
        List.single_le_sum (fun y hy => le_of_lt (hpos y (List.mem_cons_of_mem a hy))) x h
      have ha : 0 < a := hpos a (List.mem_cons_self a t)
      simp only [List.sum_cons]
      linarith

lemma filterSum_zip_toNat (X : Int) (hX : 0 ≤ X) :
    ∀ (labels : List Int) (ws : List ℝ), (∀ l ∈ labels, 0 ≤ l) →
    ((((labels.map Int.toNat).zip ws).filter (fun p => p.1 == X.toNat)).map Prod.snd).sum
      = (((labels.zip ws).filter (fun p => p.1 == X)).map Prod.snd).sum := by
  intro labels
  induction labels with
  | nil => intro ws _; simp
  | cons l t ih =>
    intro ws hall
    cases ws with
    | nil => simp
    | cons w tw =>
      have hbeq : (l.toNat == X.toNat) = (l == X) := by
        have h0 := hall l (List.mem_cons_self l t)
        by_cases h : l = X
        · simp [h]
        · have h2 : l.toNat ≠ X.toNat := by omega
          simp [h, h2]
      have ht : ∀ a ∈ t, 0 ≤ a := fun a ha => hall a (List.mem_cons_of_mem l ha)
      simp only [List.map_cons, List.zip_cons_cons, List.filter_cons, hbeq]
      by_cases h : (l == X) = true
      · simp only [h, if_pos, List.map_cons, List.sum_cons]
        rw [ih tw ht]
      · have h2 : (l == X) = false := by simpa using h
        simp only [h2, Bool.false_eq_true, if_neg, not_false_iff]
        exact ih tw ht

lemma scoresOf_row (ds : DataStore) (q : List (List ℤ)) (k : Nat) (T : ℚ)
    (L A : List (List Int)) (qi : Nat)
    (heq : ds.search_k q k T = .ok (ds.scoreMat q k T L, A, ds.neighborIdMat q k))
    (hLlen : L.length = q.length) (hqi : qi < q.length) :
    (ds.scoresOf q k T).getD qi []
      = scoreRowOf ds.vocab_size.toNat (L.getD qi [])
          (ds.neighborWeights (q.getD qi []) k T) := by
  unfold DataStore.scoresOf
  rw [heq]
  unfold DataStore.scoreMat
  have hlen : qi < (List.zipWith
      (fun qv lrow => scoreRowOf ds.vocab_size.toNat lrow (ds.neighborWeights qv k T))
      q L).length := by
    rw [List.length_zipWith]
    omega
  rw [List.getD_eq_getElem _ [] hlen, List.getElem_zipWith]
  rw [List.getD_eq_getElem q [] hqi, List.getD_eq_getElem L [] (by omega)]

/-- C2: for every query of a successful search whose retrieved neighbors
include two entries (at distinct positions `i` and `j`) sharing the same
label `X`, the returned score at position `X` equals the sum of the softmax
weights of exactly the neighbors labelled `X` (weights accumulate, they are
never overwritten), and is strictly greater than either duplicate entry's
weight alone (and, since `i` and `j` range over all duplicate positions,
greater than any one of those weights). -/
theorem duplicate_labels_accumulate (ds : DataStore) (q : List (List ℤ)) (k : Nat) (T : ℚ)
    (L : List (List Int)) (qi i j : Nat) (X : Int)
    (hok : exceptOk (ds.search_k q k T) = true)
    (hL : ds.labelRowsOf q k = some L)
    (hqi : qi < q.length)
    (hi : i < (L.getD qi []).length) (hj : j < (L.getD qi []).length) (hij : i ≠ j)
    (hXi : (L.getD qi []).getD i 0 = X) (hXj : (L.getD qi []).getD j 0 = X) :
    ((ds.scoresOf q k T).getD qi []).getD X.toNat 0
        = ((((L.getD qi []).zip (ds.neighborWeights (q.getD qi []) k T)).filter
            (fun p => p.1 == X)).map Prod.snd).sum ∧
      (ds.neighborWeights (q.getD qi []) k T).getD i 0
          < ((ds.scoresOf q k T).getD qi []).getD X.toNat 0 ∧
      (ds.neighborWeights (q.getD qi []) k T).getD j 0
          < ((ds.scoresOf q k T).getD qi []).getD X.toNat 0 := by
  obtain ⟨hv, L2, A, hL2, hA, hr, heq⟩ := search_k_ok_inv ds q k T hok
  rw [hL] at hL2
  have hLL : L = L2 := by injection hL2
  subst hLL
  obtain ⟨hLlen, hLget⟩ := labelRow_facts ds q k L hL
  set lrow := L.getD qi [] with hlrowdef
  set qv := q.getD qi [] with hqvdef
  set ws := ds.neighborWeights qv k T with hwsdef
  have hqiL : qi < L.length := by omega
  have hlmem : lrow ∈ L := by
    rw [hlrowdef, List.getD_eq_getElem L [] hqiL]
    exact List.getElem_mem hqiL
  have hrange : ∀ l ∈ lrow, 0 ≤ l ∧ l < ds.vocab_size := by
    intro l hl
    have h1 := List.all_eq_true.mp hr lrow hlmem
    have h2 := List.all_eq_true.mp h1 l hl
    rw [Bool.and_eq_true, decide_eq_true_eq, decide_eq_true_eq] at h2
    exact h2
  have hlook := hLget qi hqi
  have hlrowlen : lrow.length = (ds.neighborIds qv k).length :=
    lookupMany_some_length hlook
  have hwslen : ws.length = lrow.length := by
    rw [hwsdef, neighborWeights_length, hlrowlen]
  have hXmem : X ∈ lrow := by
    rw [← hXi, List.getD_eq_getElem lrow 0 hi]
    exact List.getElem_mem hi
  obtain ⟨hX0, hXv⟩ := hrange X hXmem
  have hXtoNat : X.toNat < ds.vocab_size.toNat := by omega
  have hrow := scoresOf_row ds q k T L A qi heq hLlen hqi
  rw [← hlrowdef, ← hqvdef, ← hwsdef] at hrow
  have hbase : X.toNat < (zerosR ds.vocab_size.toNat).length := by
    simpa [zerosR] using hXtoNat
  have hzero : (zerosR ds.vocab_size.toNat).getD X.toNat 0 = 0 := by
    rw [List.getD_eq_getElem _ 0 hbase]
    simp [zerosR]
  have hvalue : ((ds.scoresOf q k T).getD qi []).getD X.toNat 0
      = (((lrow.zip ws).filter (fun p => p.1 == X)).map Prod.snd).sum := by
    rw [hrow]
    unfold scoreRowOf
    rw [scatterRow_getD _ _ _ hbase, hzero, zero_add]
    exact filterSum_zip_toNat X hX0 lrow ws (fun l hl => (hrange l hl).1)
  have hziplen : (lrow.zip ws).length = lrow.length := by
    rw [List.length_zip, hwslen]
    omega
  have hgen : ∀ p ∈ (lrow.zip ws).filter (fun p => p.1 == X),
      p.2 < ((ds.scoresOf q k T).getD qi []).getD X.toNat 0 := by
    intro p hp
    rw [hvalue]
    have hws_ne : (ds.neighborDists qv k).map
        (fun dv => -((dv : ℤ) : ℝ) / ((T : ℚ) : ℝ)) ≠ [] := by
      intro hc
      have : (ds.neighborDists qv k) = [] := by
        rwa [List.map_eq_nil_iff] at hc
      have hids : (ds.neighborIds qv k).length = 0 := by
        unfold DataStore.neighborIds
        unfold DataStore.neighborDists at this
        rw [List.length_map, ← List.length_map (f := Prod.fst), this]
        rfl
      omega
    have hws_pos : ∀ w ∈ ws, 0 < w := by
      rw [hwsdef]
      unfold DataStore.neighborWeights
      exact softmax_pos _ hws_ne
    have hfilter2 : 2 ≤ ((lrow.zip ws).filter (fun p => p.1 == X)).length := by
      have hi2 : i < (lrow.zip ws).length := by omega
      have hj2 : j < (lrow.zip ws).length := by omega
      apply two_le_length_filter _ (lrow.zip ws) i j hi2 hj2 hij
      · rw [List.get_eq_getElem, List.getElem_zip]
        have : lrow[i] = X := by rw [← List.getD_eq_getElem lrow 0 hi, hXi]
        simp [this]
      · rw [List.get_eq_getElem, List.getElem_zip]
        have : lrow[j] = X := by rw [← List.getD_eq_getElem lrow 0 hj, hXj]
        simp [this]
    apply lt_sum_of_two_le_length
    · intro x hx
      obtain ⟨p2, hp2, rfl⟩ := List.mem_map.mp hx
      obtain ⟨a, b⟩ := p2
      have hmem := (List.mem_filter.mp hp2).1
      exact hws_pos b (List.of_mem_zip hmem).2
    · rw [List.length_map]
      exact hfilter2
    · exact List.mem_map_of_mem Prod.snd hp
  have hlt : ∀ m, m < lrow.length → lrow.getD m 0 = X →
      ws.getD m 0 < ((ds.scoresOf q k T).getD qi []).getD X.toNat 0 := by
    intro m hm hXm
    have hzm : m < (lrow.zip ws).length := by omega
    have hmw : m < ws.length := by omega
    have hXm2 : lrow[m] = X := by rw [← List.getD_eq_getElem lrow 0 hm, hXm]
    have hpmem : (lrow[m], ws[m]) ∈ (lrow.zip ws).filter (fun p => p.1 == X) := by
      apply List.mem_filter.mpr
      constructor
      · have := List.getElem_mem hzm
        rwa [List.getElem_zip] at this
      · simp [hXm2]
    have hres := hgen (lrow[m], ws[m]) hpmem
    rw [List.getD_eq_getElem ws 0 hmw]
    exact hres
  exact ⟨hvalue, hlt i hi hXi, hlt j hj hXj⟩

/-- C3: saving a datastore and loading the saved directory into a fresh
instance, then setting the same vocab size, reproduces identical search
results for every fixed query batch, every `k` and every temperature. -/
theorem save_load_roundtrip_search (ds : DataStore) (dfresh : Nat)
    (q : List (List ℤ)) (k : Nat) (T : ℚ) :
    (((DataStore.init dfresh).load ds.save).set_vocab_size ds.vocab_size).search_k q k T
      = ds.search_k q k T := by
  cases ds
  rfl

lemma lookupRows_some_eq_map {store : List Int} {rows : List (List Nat)}
    {L : List (List Int)} (h : lookupRows store rows = some L) :
    L = rows.map (fun ids => ids.map (fun i => store.getD i 0)) := by
  apply List.ext_getElem
  · rw [lookupRows_some_length h, List.length_map]
  · intro n h1 h2
    have hn : n < rows.length := by rwa [lookupRows_some_length h] at h1
    have hlook := lookupRows_some_getD h n hn
    rw [List.getD_eq_getElem L [] h1, List.getD_eq_getElem rows [] hn] at hlook
    rw [List.getElem_map]
    exact lookupMany_some_eq_map hlook

/-- C4: a successful search returns a triple of parallel results: one score
row per query, each of length `vocab_size` (the row-length list is constant),
the neighbor id matrix (one row of retrieved ids per query, in retrieval
order), and the input-token ids
obtained by looking each retrieved id up in the input store in retrieval
order, duplicates included (the lookup result is exactly an elementwise map
over the id rows); the label lookup feeding the aggregation is the same kind
of elementwise map over the id rows, so both the label and the input-token
lookups preserve retrieval order including duplicate ids. -/
theorem search_result_shape (ds : DataStore) (q : List (List ℤ)) (k : Nat) (T : ℚ)
    (hok : exceptOk (ds.search_k q k T) = true) :
    (ds.scoresOf q k T).length = q.length ∧
      (ds.scoresOf q k T).map List.length
          = List.replicate q.length ds.vocab_size.toNat ∧
      ds.idsOf q k T = q.map (fun qv => ds.neighborIds qv k) ∧
      ds.inputsOf q k T
        = (ds.idsOf q k T).map (fun ids => ids.map (fun i => ds.input_id_store.getD i 0)) ∧
      ds.labelRowsOf q k
        = some ((ds.idsOf q k T).map
            (fun ids => ids.map (fun i => ds.label_id_store.getD i 0))) := by
  obtain ⟨hv, L, A, hL, hA, hr, heq⟩ := search_k_ok_inv ds q k T hok
  have hLlen : L.length = q.length := (labelRow_facts ds q k L hL).1
  have hscores : ds.scoresOf q k T = ds.scoreMat q k T L := by
    unfold DataStore.scoresOf
    rw [heq]
  have hids : ds.idsOf q k T = ds.neighborIdMat q k := by
    unfold DataStore.idsOf
    rw [heq]
  have hinputs : ds.inputsOf q k T = A := by
    unfold DataStore.inputsOf
    rw [heq]
  refine ⟨?_, ?_, ?_, ?_, ?_⟩
  · rw [hscores]
    unfold DataStore.scoreMat
    rw [List.length_zipWith]
    omega
  · rw [List.eq_replicate_iff]
    constructor
    · rw [List.length_map, hscores]
      unfold DataStore.scoreMat
      rw [List.length_zipWith]
      omega
    · intro b hb
      obtain ⟨row, hrow, rfl⟩ := List.mem_map.mp hb
      rw [hscores] at hrow
      unfold DataStore.scoreMat at hrow
      rw [List.mem_iff_getElem] at hrow
      obtain ⟨n, hn, hrow⟩ := hrow
      rw [List.getElem_zipWith] at hrow
      subst hrow
      unfold scoreRowOf
      rw [scatterRow_length]
      simp [zerosR]
  · rw [hids]
    rfl
  · rw [hinputs, hids]
    unfold DataStore.inputRowsOf at hA
    exact lookupRows_some_eq_map hA
  · rw [hids, hL]
    have hmapL := lookupRows_some_eq_map (by unfold DataStore.labelRowsOf at hL; exact hL)
    rw [hmapL]

/-- C5 (amended): the aggregation step of `search_k` fails (with the
out-of-range error) exactly when some retrieved label id lies outside
`[0, vocab_size)`; the temperature is never validated, so for any `T`,
including `T ≤ 0`, a search with in-range labels does not fail — and no
search with the vocab size set fails with the vocab error. -/
theorem label_range_fails_temperature_unchecked (ds : DataStore) (q : List (List ℤ))
    (k : Nat) (T : ℚ) (L : List (List Int))
    (hv : 1 ≤ ds.vocab_size)
    (hL : ds.labelRowsOf q k = some L)
    (hA : (ds.inputRowsOf q k).isSome = true) :
    (ds.search_k q k T = .error .outOfRange ↔ labelsInRangeB ds.vocab_size L = false) ∧
      ds.search_k q k T ≠ .error .vocabNotSet := by
  obtain ⟨A, hA2⟩ := Option.isSome_iff_exists.mp hA
  unfold DataStore.search_k
  rw [if_neg (by omega), hL, hA2]
  by_cases hr : labelsInRangeB ds.vocab_size L = true
  · simp [hr]
  · have hr2 : labelsInRangeB ds.vocab_size L = false := by simpa using hr
    simp [hr2]

/-- C6 (amended): invoking training on an already trained datastore is not
rejected: `train_index` performs no lifecycle check, returns normally rather
than an `AlreadyTrainedError`, and the underlying library treats training of
a trained index as a no-op, so the datastore is returned unchanged. -/
theorem train_again_returns_store_unchanged (ds : DataStore) (ks : List (List ℤ))
    (h : ds.index.is_trained = true) :
    ds.train_index ks = .ok ds := by
  unfold DataStore.train_index IVFIndex.train
  rw [if_pos h]

/-- C7: a fresh datastore (vocab size never set since construction) fails
every search with the vocab error, and after `set_vocab_size` with a valid
size (at least 1) no search fails with that error any more. -/
theorem vocab_must_be_set_before_search (d : Nat) (ds : DataStore) (n : Int)
    (hn : 1 ≤ n) (q : List (List ℤ)) (k : Nat) (T : ℚ) :
    (DataStore.init d).search_k q k T = .error .vocabNotSet ∧
      (ds.set_vocab_size n).search_k q k T ≠ .error .vocabNotSet := by
  constructor
  · unfold DataStore.search_k
    rw [if_pos (by norm_num [DataStore.init])]
  · intro hc
    unfold DataStore.search_k at hc
    rw [if_neg (by simp only [DataStore.set_vocab_size]; omega)] at hc
    cases hL : (ds.set_vocab_size n).labelRowsOf q k with
    | none =>
      rw [hL] at hc
      cases hA : (ds.set_vocab_size n).inputRowsOf q k with
      | none => rw [hA] at hc; simp at hc
      | some A => rw [hA] at hc; simp at hc
    | some L =>
      rw [hL] at hc
      cases hA : (ds.set_vocab_size n).inputRowsOf q k with
      | none => rw [hA] at hc; simp at hc
      | some A =>
        rw [hA] at hc
        dsimp only at hc
        by_cases hr : labelsInRangeB (ds.set_vocab_size n).vocab_size L = true
        · rw [if_pos hr] at hc
          exact Except.noConfusion hc
        · rw [if_neg hr] at hc
          exact DSError.noConfusion (Except.error.inj hc)

/-- C10: the vocabulary guard of `search_k` is a positivity check against the
sentinel: a fresh datastore has `vocab_size = -1`, search fails with the
vocab error whenever `vocab_size < 1`, and calling `set_vocab_size` with any
`n ≤ 0` leaves every subsequent search failing with exactly that error, as
if the size had never been set. -/
theorem vocab_sentinel_guard (d : Nat) (ds : DataStore) (n : Int)
    (q : List (List ℤ)) (k : Nat) (T : ℚ)
    (hlow : ds.vocab_size < 1) (hn : n ≤ 0) :
    (DataStore.init d).vocab_size = -1 ∧
      ds.search_k q k T = .error .vocabNotSet ∧
      (ds.set_vocab_size n).search_k q k T = .error .vocabNotSet := by
  refine ⟨rfl, ?_, ?_⟩
  · unfold DataStore.search_k
    rw [if_pos hlow]
  · unfold DataStore.search_k
    rw [if_pos (by simp only [DataStore.set_vocab_size]; omega)]

lemma IVFIndex.addOne_ntotal (idx : IVFIndex) (v : List ℤ) :
    (idx.addOne v).ntotal = idx.ntotal + 1 := rfl

lemma IVFIndex.add_ntotal : ∀ (vecs : List (List ℤ)) (idx : IVFIndex),
    (idx.add vecs).ntotal = idx.ntotal + vecs.length := by
  intro vecs
  induction vecs with
  | nil => intro idx; simp [IVFIndex.add]
  | cons v rest ih =>
    intro idx
    unfold IVFIndex.add at ih ⊢
    rw [List.foldl_cons, ih]
    simp [IVFIndex.addOne_ntotal]
    omega

lemma IVFIndex.train_ok_ntotal {idx idx2 : IVFIndex} {sample : List (List ℤ)}
    (h : idx.train sample = .ok idx2) : idx2.ntotal = idx.ntotal := by
  unfold IVFIndex.train at h
  split at h
  · injection h with h2
    subst h2
    rfl
  · split at h
    · exact absurd h (by simp)
    · injection h with h2
      subst h2
      rfl

lemma whitenStage_snd_length (args : Args) (d : Nat)
    (wfn : List (List ℤ) → List (List ℤ) × List ℤ)
    (tfn : List ℤ → List (List ℤ) → List ℤ → List ℤ)
    (key_store : List (List ℤ)) :
    (whitenStage args d wfn tfn key_store).2.length = key_store.length := by
  unfold whitenStage
  by_cases h : args.whitening = true
  · rw [if_pos h]
    simp
  · rw [if_neg h]

lemma shard_flatten_counts (feats : List Shard) (pct : Nat)
    (hsh : ∀ s ∈ feats, s.keys.length = s.labels.length ∧ s.keys.length = s.inputs.length) :
    (((feats.take (feats.length * pct / 100)).map Shard.keys).flatten).length
        = (((feats.take (feats.length * pct / 100)).map Shard.labels).flatten).length ∧
      (((feats.take (feats.length * pct / 100)).map Shard.keys).flatten).length
        = (((feats.take (feats.length * pct / 100)).map Shard.inputs).flatten).length := by
  have htaken : ∀ s ∈ feats.take (feats.length * pct / 100),
      s.keys.length = s.labels.length ∧ s.keys.length = s.inputs.length :=
    fun s hs => hsh s (List.mem_of_mem_take hs)
  constructor
  · simp only [List.length_flatten, List.map_map]
    exact congrArg List.sum (List.map_congr_left (fun s hs => (htaken s hs).1))
  · simp only [List.length_flatten, List.map_map]
    exact congrArg List.sum (List.map_congr_left (fun s hs => (htaken s hs).2))

lemma read_feature_files_ok_inv {feats : List Shard} {pct : Nat}
    {keys : List (List ℤ)} {labels inputs : List Int}
    (h : read_feature_files feats pct = .ok (keys, labels, inputs)) :
    keys = ((feats.take (feats.length * pct / 100)).map Shard.keys).flatten ∧
      labels = ((feats.take (feats.length * pct / 100)).map Shard.labels).flatten ∧
      inputs = ((feats.take (feats.length * pct / 100)).map Shard.inputs).flatten := by
  unfold read_feature_files at h
  dsimp only at h
  split at h
  · exact absurd h (by simp)
  · injection h with h2
    rw [Prod.mk.injEq, Prod.mk.injEq] at h2
    exact ⟨h2.1.symm, h2.2.1.symm, h2.2.2.symm⟩

lemma read_features_and_train_ok_inv (ds : DataStore) (args : Args)
    (wfn : List (List ℤ) → List (List ℤ) × List ℤ)
    (tfn : List ℤ → List (List ℤ) → List ℤ → List ℤ)
    (feats : List Shard) (pct : Nat)
    (h : exceptOk (ds.read_features_and_train args wfn tfn feats pct) = true) :
    ∃ keys labels inputs idx2,
      read_feature_files feats pct = .ok (keys, labels, inputs) ∧
      ds.index.train (whitenStage args ds.d wfn tfn keys).2 = .ok idx2 ∧
      ds.read_features_and_train args wfn tfn feats pct
        = .ok ({ ds.withStores labels inputs with
                   index := idx2.add (whitenStage args ds.d wfn tfn keys).2 },
            { kernel_file := (whitenStage args ds.d wfn tfn keys).1.map Prod.fst
              bias_file := (whitenStage args ds.d wfn tfn keys).1.map Prod.snd
              saved := DataStore.save
                { ds.withStores labels inputs with
                    index := idx2.add (whitenStage args ds.d wfn tfn keys).2 } }) := by
  cases hread : read_feature_files feats pct with
  | error e =>
    exfalso
    unfold DataStore.read_features_and_train at h
    rw [hread] at h
    simp [exceptOk] at h
  | ok r =>
    obtain ⟨keys, labels, inputs⟩ := r
    cases ht : ds.index.train (whitenStage args ds.d wfn tfn keys).2 with
    | error e =>
      exfalso
      unfold DataStore.read_features_and_train DataStore.train_index at h
      rw [hread] at h
      dsimp only [DataStore.withStores] at h
      rw [ht] at h
      simp [exceptOk] at h
    | ok idx2 =>
      refine ⟨keys, labels, inputs, idx2, rfl, ht, ?_⟩
      unfold DataStore.read_features_and_train DataStore.train_index DataStore.add_keys
      rw [hread]
      dsimp only [DataStore.withStores]
      rw [ht]

/-- C8: when whitening is enabled and the build runs to completion (the read
of the feature files succeeds and the training of the index on the
transformed keys succeeds), the build computes the kernel and bias from the
raw key store, truncates the kernel when dimension reduction is enabled,
transforms every key vector once with the resulting affine map, trains the
index on the transformed key store and inserts exactly that same transformed
key store, and persists the kernel and bias to the output directory together
with the saved datastore. -/
theorem whitening_applied_before_train_and_add (ds : DataStore) (args : Args)
    (wfn : List (List ℤ) → List (List ℤ) × List ℤ)
    (tfn : List ℤ → List (List ℤ) → List ℤ → List ℤ)
    (feats : List Shard) (pct : Nat)
    (hw : args.whitening = true) :
    ∀ keyStore labels inputs kernel bias tks idx2,
      read_feature_files feats pct = .ok (keyStore, labels, inputs) →
      kernel = effectiveKernel args ds.d (wfn keyStore).1 →
      bias = (wfn keyStore).2 →
      tks = keyStore.map (fun v => tfn v kernel bias) →
      ds.index.train tks = .ok idx2 →
      ds.read_features_and_train args wfn tfn feats pct
        = .ok ({ ds.withStores labels inputs with index := idx2.add tks },
            { kernel_file := some kernel
              bias_file := some bias
              saved := DataStore.save
                { ds.withStores labels inputs with index := idx2.add tks } }) := by
  intro keyStore labels inputs kernel bias tks idx2 hread h2 h3 h4 ht
  subst h2 h3 h4
  unfold DataStore.read_features_and_train DataStore.train_index DataStore.add_keys
  rw [hread]
  dsimp only [DataStore.withStores]
  unfold whitenStage
  rw [if_pos hw]
  dsimp only
  rw [ht]
  rfl

/-- C9 (amended): a build that runs to completion from shards with matching
per-shard row counts, starting from a datastore with an empty index,
satisfies the count invariant: the label store, the input store and the
index's insertion counter all agree at the end of the build; the index-count
equality holds only once the keys have been added, not at every intermediate
point. -/
theorem build_final_count_invariant (ds : DataStore) (args : Args)
    (wfn : List (List ℤ) → List (List ℤ) × List ℤ)
    (tfn : List ℤ → List (List ℤ) → List ℤ → List ℤ)
    (feats : List Shard) (pct : Nat)
    (hnt : ds.index.ntotal = 0)
    (hsh : ∀ s ∈ feats, s.keys.length = s.labels.length ∧ s.keys.length = s.inputs.length)
    (hok : exceptOk (ds.read_features_and_train args wfn tfn feats pct) = true) :
    countInvariant (ds.buildOut args wfn tfn feats pct) := by
  obtain ⟨keys, labels, inputs, idx2, hread, ht, heq⟩ :=
    read_features_and_train_ok_inv ds args wfn tfn feats pct hok
  obtain ⟨hk, hl, hi⟩ := read_feature_files_ok_inv hread
  obtain ⟨hc1, hc2⟩ := shard_flatten_counts feats pct hsh
  have hnt2 : idx2.ntotal = 0 := by rw [IVFIndex.train_ok_ntotal ht, hnt]
  unfold DataStore.buildOut
  rw [heq]
  refine ⟨?_, ?_⟩
  · show labels.length = inputs.length
    rw [hl, hi]
    omega
  · show labels.length = (idx2.add (whitenStage args ds.d wfn tfn keys).2).ntotal
    rw [IVFIndex.add_ntotal, hnt2, whitenStage_snd_length, hl, hk]
    omega

/-! ### Concrete instances used to exhibit counterexamples and witnesses -/

/-- Small trained and populated datastore: one centroid, two stored vectors
with labels 0 and 1, vocab size 3. -/
def exDS : DataStore :=
  { d := 2
    index :=
      { d := 2
        nCentroids := 1
        nprobe := 1
        centroids := [[0, 0]]
        is_trained := true
        lists := [[(0, [0, 0]), (1, [1, 0])]]
        ntotal := 2 }
    vocab_size := 3
    label_id_store := [0, 1]
    input_id_store := [5, 6] }

/-- Variant of `exDS` in which both stored vectors carry the same label 2. -/
def exDupDS : DataStore :=
  { exDS with label_id_store := [2, 2] }

/-- One raw-feature shard with two rows. -/
def exShards : List Shard :=
  [{ keys := [[1, 1], [2, 2]], labels := [0, 1], inputs := [7, 8] }]

/-- Build options with whitening enabled. -/
def exArgsW : Args := { whitening := true, dim_reduction := 768 }

/-- Concrete stand-in for the external whitening routine. -/
def exWfn : List (List ℤ) → List (List ℤ) × List ℤ := fun _ => ([[1, 0], [0, 1]], [0, 0])

/-- Concrete stand-in for the external transform routine. -/
def exTfn : List ℤ → List (List ℤ) → List ℤ → List ℤ := fun v _ _ => v

/-- Witness for C1 at a concrete store and query. -/
theorem search_score_rows_sum_one_witness :
    (exDS.scoresOf [[0, 0]] 2 1).map List.sum = List.replicate 1 (1 : ℝ) :=
  search_score_rows_sum_one exDS [[0, 0]] 2 1 (by decide) (by decide) (by decide)

/-- Witness for C2 at a concrete store whose two retrieved neighbors share
label 2. -/
theorem duplicate_labels_accumulate_witness :
    ((exDupDS.scoresOf [[0, 0]] 2 1).getD 0 []).getD (2 : Int).toNat 0
        = (((([2, 2] : List Int).zip (exDupDS.neighborWeights [0, 0] 2 1)).filter
            (fun p => p.1 == (2 : Int))).map Prod.snd).sum ∧
      (exDupDS.neighborWeights [0, 0] 2 1).getD 0 0
          < ((exDupDS.scoresOf [[0, 0]] 2 1).getD 0 []).getD (2 : Int).toNat 0 ∧
      (exDupDS.neighborWeights [0, 0] 2 1).getD 1 0
          < ((exDupDS.scoresOf [[0, 0]] 2 1).getD 0 []).getD (2 : Int).toNat 0 :=
  duplicate_labels_accumulate exDupDS [[0, 0]] 2 1 [[2, 2]] 0 0 1 2
    (by decide) (by decide) (by decide) (by decide) (by decide) (by decide)
    (by decide) (by decide)

/-- Witness for C4 at a concrete store and query. -/
theorem search_result_shape_witness :
    (exDS.scoresOf [[0, 0]] 2 1).length = ([[0, 0]] : List (List ℤ)).length ∧
      (exDS.scoresOf [[0, 0]] 2 1).map List.length
          = List.replicate 1 exDS.vocab_size.toNat ∧
      exDS.idsOf [[0, 0]] 2 1
        = ([[0, 0]] : List (List ℤ)).map (fun qv => exDS.neighborIds qv 2) ∧
      exDS.inputsOf [[0, 0]] 2 1
        = (exDS.idsOf [[0, 0]] 2 1).map
            (fun ids => ids.map (fun i => exDS.input_id_store.getD i 0)) ∧
      exDS.labelRowsOf [[0, 0]] 2
        = some ((exDS.idsOf [[0, 0]] 2 1).map
            (fun ids => ids.map (fun i => exDS.label_id_store.getD i 0))) :=
  search_result_shape exDS [[0, 0]] 2 1 (by decide)

/-- Counterexample to C5 as stated: with temperature -1 (so T ≤ 0) and all
labels in range, the search returns a score matrix instead of failing with a
temperature error. -/
theorem temperature_not_validated_counterexample :
    exceptOk (exDS.search_k [[0, 0]] 2 (-1)) = true := by decide

/-- Witness for the amended C5 at a concrete store, with temperature -1. -/
theorem label_range_fails_temperature_unchecked_witness :
    (exDS.search_k [[0, 0]] 2 (-1) = .error .outOfRange
        ↔ labelsInRangeB exDS.vocab_size [[0, 1]] = false) ∧
      exDS.search_k [[0, 0]] 2 (-1) ≠ .error .vocabNotSet :=
  label_range_fails_temperature_unchecked exDS [[0, 0]] 2 (-1) [[0, 1]]
    (by decide) (by decide) (by decide)

/-- Counterexample to C6 as stated: a trained, populated datastore accepts a
second training call; it is not rejected with the claimed error. -/
theorem train_again_not_rejected_counterexample :
    exDS.index.is_trained = true ∧
      exDS.train_index [[1, 1]] ≠ .error .alreadyTrained :=
  ⟨rfl, fun hc => Except.noConfusion hc⟩

/-- Witness for the amended C6: re-training the concrete trained store
returns it unchanged. -/
theorem train_again_returns_store_unchanged_witness :
    exDS.train_index [[1, 1]] = .ok exDS :=
  train_again_returns_store_unchanged exDS [[1, 1]] rfl

/-- Witness for C7 at concrete stores. -/
theorem vocab_must_be_set_before_search_witness :
    (DataStore.init 2).search_k [[0, 0]] 1 1 = .error .vocabNotSet ∧
      (exDS.set_vocab_size 3).search_k [[0, 0]] 1 1 ≠ .error .vocabNotSet :=
  vocab_must_be_set_before_search 2 exDS 3 (by decide) [[0, 0]] 1 1

/-- Fresh datastore whose index asks for only 2 centroids, so that a 2-row
build has enough training data to complete. -/
def exBuildDS : DataStore :=
  { d := 2
    index := IVFIndex.base 2 2 1
    vocab_size := -1
    label_id_store := []
    input_id_store := [] }

/-- The index of `exBuildDS` after training on the two keys of `exShards`:
each key becomes its own centroid. -/
def exTrainedIdx : IVFIndex :=
  { d := 2
    nCentroids := 2
    nprobe := 1
    centroids := [[1, 1], [2, 2]]
    is_trained := true
    lists := [[], []]
    ntotal := 0 }

set_option maxRecDepth 4000 in
/-- Witness for C8 at a concrete whitening-enabled build that completes. -/
theorem whitening_applied_before_train_and_add_witness :
    exBuildDS.read_features_and_train exArgsW exWfn exTfn exShards 100
      = .ok ({ exBuildDS.withStores [0, 1] [7, 8] with
                 index := exTrainedIdx.add [[1, 1], [2, 2]] },
          { kernel_file := some [[1, 0], [0, 1]]
            bias_file := some [0, 0]
            saved := DataStore.save { exBuildDS.withStores [0, 1] [7, 8] with
                index := exTrainedIdx.add [[1, 1], [2, 2]] } }) :=
  whitening_applied_before_train_and_add exBuildDS exArgsW exWfn exTfn exShards 100 rfl
    [[1, 1], [2, 2]] [0, 1] [7, 8] [[1, 0], [0, 1]] [0, 0] [[1, 1], [2, 2]] exTrainedIdx
    rfl rfl rfl rfl rfl

/-- Counterexample to C9 as stated ("the count invariant holds at every
point of the build"): the read of a one-shard, two-row feature directory
succeeds, and in the state right after the stores are set from it (source
lines 163-164) the label store already holds 2 entries while the index
still holds none. -/
theorem count_invariant_midbuild_counterexample :
    read_feature_files exShards 100 = .ok ([[1, 1], [2, 2]], [0, 1], [7, 8]) ∧
      ¬ countInvariant ((DataStore.init 2).withStores [0, 1] [7, 8]) :=
  ⟨rfl, by decide⟩

set_option maxRecDepth 4000 in
/-- Witness for the amended C9 at a concrete build that completes. -/
theorem build_final_count_invariant_witness :
    countInvariant (exBuildDS.buildOut exArgsW exWfn exTfn exShards 100) :=
  build_final_count_invariant exBuildDS exArgsW exWfn exTfn exShards 100
    rfl (by decide) (by decide)

/-- Witness for C10 at concrete stores. -/
theorem vocab_sentinel_guard_witness :
    (DataStore.init 2).vocab_size = -1 ∧
      (DataStore.init 3).search_k [[0, 0]] 1 1 = .error .vocabNotSet ∧
      ((DataStore.init 3).set_vocab_size 0).search_k [[0, 0]] 1 1 = .error .vocabNotSet :=
  vocab_sentinel_guard 2 (DataStore.init 3) 0 [[0, 0]] 1 1 (by decide) (by decide)
